import Mathlib

/-!
Verification of the LLM-Buddy Prompt-to-File Association Engine.

Shallow embedding of the relevant parts of `combiner2.py`,
`llm-proxy-recorder/prompt_database.py` and
`llm-proxy-recorder/server/app.py`, with theorems settling the
specification claims about reconciliation, active-prompt association,
change significance, cooldown gating, provenance inference, the
snapshot codec, timestamp parsing and the JSON wire format.

Python dictionaries are modelled as association lists with
replace-on-insert semantics; `datetime` values as a record of numeric
fields; file contents and the snapshot blob as `List Char` so that the
regex-based decoder can be reasoned about structurally.
-/

namespace LLMBuddy

/-- Association-list lookup, modelling Python `dict[key]` access
(first match; our insert keeps keys unique so this is the dict value). -/
def lookupA {α : Type} (l : List (String × α)) (k : String) : Option α :=
  (l.find? (fun kv => kv.1 == k)).map (·.2)

/-- Association-list insert, modelling Python `dict[key] = value`:
replaces the value if the key is present, otherwise appends. -/
def insertA {α : Type} (l : List (String × α)) (k : String) (v : α) :
    List (String × α) :=
  match l with
  | [] => [(k, v)]
  | kv :: rest =>
    if kv.1 == k then (k, v) :: rest else kv :: insertA rest k v

/-- Model of `datetime` values: the fields `combiner2.py` reads and
writes (naive timestamps, no timezone). -/
structure DateTime where
  year : Nat
  month : Nat
  day : Nat
  hour : Nat
  minute : Nat
  second : Nat
  microsecond : Nat
deriving DecidableEq, Repr

/-- Payload of one retroactive-association note
(`PromptRecord.retroactive_notes` values). -/
structure RetroNote where
  files : List String
  token_change : Int
  notes : String
deriving DecidableEq, Repr

/-- Canonical in-memory prompt record (`combiner2.PromptRecord`).
`id` is `Option String` because the Claude-import path assigns
`p.get("id")`, which is `None` when the key is absent. -/
structure PromptRec where
  id : Option String
  timestamp : DateTime
  prompt_text : String
  llm_used : String
  description : String
  associated_files : List String
  file_changes : List (String × Int)
  retroactive_notes : List (String × RetroNote)
  source : String
deriving DecidableEq, Repr

/-- `PromptRecord.__init__(prompt_text, llm_used, description)`:
a fresh uuid, the current time, empty associations, source "Unknown". -/
def mkInitRecord (now : DateTime) (fresh : String)
    (prompt_text llm_used description : String) : PromptRec :=
  { id := some fresh
    timestamp := now
    prompt_text := prompt_text
    llm_used := llm_used
    description := description
    associated_files := []
    file_changes := []
    retroactive_notes := []
    source := "Unknown" }

/-- `combiner2.PromptDatabase` in-memory state: the prompt list and the
active-prompt reference.  The Python object reference into the list is
modelled as an index (`add_prompt` keeps it valid). -/
structure PromptDB where
  prompts : List PromptRec
  active : Option Nat
deriving DecidableEq, Repr

/-- `PromptDatabase.add_prompt`: appends the record and makes it the
active prompt (then persists; persistence is not modelled). -/
def addPrompt (db : PromptDB) (r : PromptRec) : PromptDB :=
  { db with prompts := db.prompts ++ [r], active := some db.prompts.length }

/-- `PromptDatabase.associate_file_with_active_prompt(file_path,
token_change)`: when a prompt is active and the path is not yet in its
`associated_files`, append the path, set `file_changes[path]`, and
return `True`; in every other case do nothing and return `False`. -/
def associate (db : PromptDB) (file_path : String) (token_change : Int) :
    PromptDB × Bool :=
  match db.active with
  | none => (db, false)
  | some i =>
    match db.prompts[i]? with
    | none => (db, false)
    | some r =>
      if file_path ∈ r.associated_files then (db, false)
      else
        let r' : PromptRec :=
          { r with
            associated_files := r.associated_files ++ [file_path],
            file_changes := insertA r.file_changes file_path token_change }
        ({ db with prompts := db.prompts.set i r' }, true)

/-- `PromptDatabase.clear_active_prompt`: drops the active reference. -/
def clearActivePrompt (db : PromptDB) : PromptDB :=
  { db with active := none }

/-! ### Timestamp parsing (`PromptRecord.from_dict`) -/

/-- Two-digit field: both characters must be decimal digits. -/
def d2num (a b : Char) : Option Nat :=
  if a.isDigit && b.isDigit then some ((a.toNat - 48) * 10 + (b.toNat - 48))
  else none

/-- Four-digit field (the year). -/
def d4num (a b c d : Char) : Option Nat :=
  if a.isDigit && b.isDigit && c.isDigit && d.isDigit then
    some ((((a.toNat - 48) * 10 + (b.toNat - 48)) * 10 + (c.toNat - 48)) * 10
      + (d.toNat - 48))
  else none

/-- Fractional-second field: 1 to 6 digits, zero-padded on the right to
microseconds (CPython scales `.85` to 850000 µs). -/
def parseFrac (cs : List Char) : Option Nat :=
  if 1 ≤ cs.length && cs.length ≤ 6 && cs.all Char.isDigit then
    some ((cs.foldl (fun n c => n * 10 + (c.toNat - 48)) 0) * 10 ^ (6 - cs.length))
  else none

def isLeapYear (y : Nat) : Bool :=
  (y % 4 == 0 && y % 100 != 0) || y % 400 == 0

def daysInMonth (y m : Nat) : Nat :=
  if m == 2 then (if isLeapYear y then 29 else 28)
  else if m == 4 || m == 6 || m == 9 || m == 11 then 30
  else 31

def validDate (y mo dy : Nat) : Bool :=
  1 ≤ y && y ≤ 9999 && 1 ≤ mo && mo ≤ 12 && 1 ≤ dy && dy ≤ daysInMonth y mo

/-- Hours, minutes, seconds and an optional fraction, with range checks
as `datetime` performs them. -/
def parseHMSCore (a b c d e f : Char) (frac : Option (List Char)) :
    Option (Nat × Nat × Nat × Nat) := do
  let hh ← d2num a b
  let mi ← d2num c d
  let ss ← d2num e f
  let us ← match frac with
    | none => pure 0
    | some fs => parseFrac fs
  if hh ≤ 23 && mi ≤ 59 && ss ≤ 59 then pure (hh, mi, ss, us) else none

/-- The time-of-day part of an ISO string: `HH:MM`, `HH:MM:SS` or
`HH:MM:SS.ffffff`. -/
def parseTimePart (cs : List Char) : Option (Nat × Nat × Nat × Nat) :=
  match cs with
  | [a, b, ':', c, d] => do
      let hh ← d2num a b
      let mi ← d2num c d
      if hh ≤ 23 && mi ≤ 59 then pure (hh, mi, 0, 0) else none
  | [a, b, ':', c, d, ':', e, f] => parseHMSCore a b c d e f none
  | a :: b :: ':' :: c :: d :: ':' :: e :: f :: '.' :: fs =>
      parseHMSCore a b c d e f (some fs)
  | _ => none

/-- Model of `datetime.fromisoformat` for the naive timestamp strings
this repository produces and routes here: `YYYY-MM-DD`, optionally
followed by a `T` or space separator and a time with an optional 1-6
digit fraction.  Timezone suffixes are not modelled (the repository
only writes naive `datetime.now().isoformat()` values). -/
def parseIso (s : String) : Option DateTime :=
  match s.toList with
  | [y1, y2, y3, y4, '-', mo1, mo2, '-', dy1, dy2] => do
      let y ← d4num y1 y2 y3 y4
      let mo ← d2num mo1 mo2
      let dy ← d2num dy1 dy2
      if validDate y mo dy then pure ⟨y, mo, dy, 0, 0, 0, 0⟩ else none
  | y1 :: y2 :: y3 :: y4 :: '-' :: mo1 :: mo2 :: '-' :: dy1 :: dy2 :: sep :: timecs =>
      if sep == 'T' || sep == ' ' then do
        let y ← d4num y1 y2 y3 y4
        let mo ← d2num mo1 mo2
        let dy ← d2num dy1 dy2
        let t ← parseTimePart timecs
        if validDate y mo dy then pure ⟨y, mo, dy, t.1, t.2.1, t.2.2.1, t.2.2.2⟩
        else none
      else none
  | _ => none

/-- The `strptime` fallback loop of `from_dict` with its four formats
`%Y-%m-%d %H:%M:%S`, `%Y-%m-%d %H:%M:%S.%f`, `%Y-%m-%dT%H:%M:%S`,
`%Y-%m-%dT%H:%M:%S.%f`: date, a space or `T` separator, and a full
`HH:MM:SS` time with optional fraction.  (This branch is only reached
for strings containing neither a space nor a `T`, so it can never
succeed; `strptime`'s tolerance for unpadded fields is immaterial.) -/
def parseStrptimeFour (s : String) : Option DateTime :=
  match s.toList with
  | y1 :: y2 :: y3 :: y4 :: '-' :: mo1 :: mo2 :: '-' :: dy1 :: dy2 :: sep :: timecs =>
      if sep == ' ' || sep == 'T' then do
        let y ← d4num y1 y2 y3 y4
        let mo ← d2num mo1 mo2
        let dy ← d2num dy1 dy2
        let t ← match timecs with
          | [a, b, ':', c, d, ':', e, f] => parseHMSCore a b c d e f none
          | a :: b :: ':' :: c :: d :: ':' :: e :: f :: '.' :: fs =>
              parseHMSCore a b c d e f (some fs)
          | _ => none
        if validDate y mo dy then pure ⟨y, mo, dy, t.1, t.2.1, t.2.2.1, t.2.2.2⟩
        else none
      else none
  | _ => none

/-- The timestamp cascade of `PromptRecord.from_dict`: strings with a
`T` go to `fromisoformat`, then strings with a space, then the
`strptime` format loop; `none` stands for "raised or never parsed". -/
def parseTimestampOpt (s : String) : Option DateTime :=
  if s.toList.contains 'T' then parseIso s
  else if s.toList.contains ' ' then parseIso s
  else parseStrptimeFour s

/-- The timestamp `from_dict` stores: the parsed value, or the current
time when parsing failed (exceptions are caught, unparsed input logged). -/
def recordTimestamp (now : DateTime) (s : String) : DateTime :=
  (parseTimestampOpt s).getD now

/-! ### The JSON wire format and `from_dict` -/

/-- One JSON object of the prompt stores (`prompt_database.json` /
`claude_prompts.json`): every key the adapters read or write, each
optional as in a Python dict. -/
structure JsonDict where
  id : Option String := none
  timestamp : Option String := none
  prompt_text : Option String := none
  model : Option String := none
  description : Option String := none
  files : Option (List String) := none
  file_changes : Option (List (String × Int)) := none
  retroactive_notes : Option (List (String × RetroNote)) := none
  source : Option String := none
deriving DecidableEq, Repr

/-- The names of the keys present in a `JsonDict`, in the fixed field
order; models `dict.keys()` for objects built with these keys. -/
def jsonKeys (d : JsonDict) : List String :=
  (if d.id.isSome then ["id"] else []) ++
  (if d.timestamp.isSome then ["timestamp"] else []) ++
  (if d.prompt_text.isSome then ["prompt_text"] else []) ++
  (if d.model.isSome then ["model"] else []) ++
  (if d.description.isSome then ["description"] else []) ++
  (if d.files.isSome then ["files"] else []) ++
  (if d.file_changes.isSome then ["file_changes"] else []) ++
  (if d.retroactive_notes.isSome then ["retroactive_notes"] else []) ++
  (if d.source.isSome then ["source"] else [])

/-- `PromptRecord.from_dict(data)`: constructs a blank record, then
fills each field with `data.get(key, default)`.  `fresh` is the uuid
the eager `str(uuid.uuid4())` default would supply for a missing `id`;
`now` the current time.  Note that the `source` key is never read. -/
def fromDict (now : DateTime) (fresh : String) (d : JsonDict) : PromptRec :=
  { id := some (d.id.getD fresh)
    timestamp := recordTimestamp now (d.timestamp.getD "")
    prompt_text := d.prompt_text.getD ""
    llm_used := d.model.getD "Unknown"
    description := d.description.getD ""
    associated_files := d.files.getD []
    file_changes := d.file_changes.getD []
    retroactive_notes := d.retroactive_notes.getD []
    source := "Unknown" }

/-- `PromptDatabase._add_to_json_db` (llm-proxy-recorder): the object
appended to `claude_prompts.json`.  An empty or missing description is
replaced by `"Prompt from <llm_name>"` (Python `or` truthiness). -/
def addToJsonDb (prompt_id timestamp prompt_text llm_name : String)
    (description : Option String) (associated_files : List String)
    (source : String) : JsonDict :=
  { id := some prompt_id
    timestamp := some timestamp
    prompt_text := some prompt_text
    description := some
      (if description.getD "" ≠ "" then description.getD ""
       else "Prompt from " ++ llm_name)
    model := some llm_name
    files := some associated_files
    source := some source }

/-! ### `PromptDatabase.load`: reconciliation of the two JSON stores -/

/-- The record the Claude-import loop of `PromptDatabase.load` builds
from one `claude_prompts.json` entry: a fresh record whose `id` is then
overwritten with `p.get("id")` and whose `files` list, when present, is
copied verbatim into `associated_files`. -/
def claudeRecord (now : DateTime) (p : JsonDict) : PromptRec :=
  { mkInitRecord now "" (p.prompt_text.getD "") (p.model.getD "Claude Desktop")
      (p.description.getD "") with
    id := p.id
    associated_files := p.files.getD [] }

/-- The Claude-import loop: each entry is skipped when any accumulated
record already carries its `id`, otherwise appended. -/
def loadClaudeFold (now : DateTime) (acc : List PromptRec)
    (cs : List JsonDict) : List PromptRec :=
  cs.foldl
    (fun acc p =>
      if acc.any (fun existing => existing.id == p.id) then acc
      else acc ++ [claudeRecord now p])
    acc

/-- The records `load` builds from the primary `prompt_database.json`
list: `from_dict` applied to each entry, with `fresh i` the uuid the
`i`-th call would draw for a missing `id`. -/
def assignPrimary (now : DateTime) (fresh : Nat → String)
    (ds : List JsonDict) : List PromptRec :=
  ds.enum.map (fun p => fromDict now (fresh p.1) p.2)

/-- `PromptDatabase.load`: `primary`/`claude` are the parsed contents of
`prompt_database.json` and `claude_prompts.json`, `none` when the file
is missing or unreadable (the exception is logged and that pass
skipped).  A successful primary pass replaces `self.prompts` outright;
the Claude pass appends id-deduplicated entries.  Returns the new state
and the `prompts_loaded` flag.  (The Python `active_prompt` object
reference is untouched by `load`; no claim depends on it here.) -/
def dbLoad (st : PromptDB) (primary claude : Option (List JsonDict))
    (now : DateTime) (fresh : Nat → String) : PromptDB × Bool :=
  let prompts1 := match primary with
    | some ds => assignPrimary now fresh ds
    | none => st.prompts
  let prompts2 := match claude with
    | some cs => loadClaudeFold now prompts1 cs
    | none => prompts1
  ({ st with prompts := prompts2 }, primary.isSome || claude.isSome)

/-! ### Change-significance detection and batch processing -/

/-- Monitoring configuration fields the handler reads
(`AutoBackupConfig.min_token_change`, `cooldown_minutes`). -/
structure MonCfg where
  min_token_change : Nat
  cooldown_minutes : Nat
deriving Repr

/-- The observable file system: for a readable path, its current MD5
hex digest and token count (`count_tokens_in_file`); `none` when
reading raises. -/
def FileSys : Type := String → Option (String × Nat)

/-- `|current_tokens − prev_tokens|` on naturals. -/
def natDist (a b : Nat) : Nat := if a ≥ b then a - b else b - a

/-- One iteration of the `_check_for_significant_changes` loop for path
`p` over the accumulator (significant changes so far, baseline cache):
unreadable files are skipped; a path with no baseline is significant
with its current token count as delta; an unchanged hash reports
nothing; a changed hash is significant iff the token delta reaches
`min_token_change`; the baseline always advances for processed files. -/
def checkStep (cfg : MonCfg) (fs : FileSys)
    (acc : List (String × Nat) × List (String × (String × Nat)))
    (p : String) : List (String × Nat) × List (String × (String × Nat)) :=
  match fs p with
  | none => acc
  | some (h, t) =>
    match lookupA acc.2 p with
    | some (h₀, t₀) =>
      if h ≠ h₀ then
        if natDist t t₀ ≥ cfg.min_token_change then
          (acc.1 ++ [(p, natDist t t₀)], insertA acc.2 p (h, t))
        else (acc.1, insertA acc.2 p (h, t))
      else (acc.1, insertA acc.2 p (h, t))
    | none => (acc.1 ++ [(p, t)], insertA acc.2 p (h, t))

/-- `EnhancedFileChangeHandler._check_for_significant_changes`: folds
`checkStep` over the pending paths, starting from an empty significant
list and the current `config.file_hashes` baselines. -/
def checkSignificantChanges (cfg : MonCfg) (fs : FileSys)
    (pending : List String) (baselines : List (String × (String × Nat))) :
    List (String × Nat) × List (String × (String × Nat)) :=
  pending.foldl (checkStep cfg fs) ([], baselines)

/-- State of the monitoring session that `_process_changes` touches:
the pending-change set (as an ordered list), the baseline cache, the
last auto-backup time (seconds), and the prompt database. -/
structure MonState where
  pending : List String
  baselines : List (String × (String × Nat))
  lastBackupTime : Option Int
  db : PromptDB
deriving DecidableEq

/-- Token count used for association: `count_tokens_in_file` returns 0
when reading fails. -/
def tokensOrZero (fs : FileSys) (p : String) : Nat :=
  ((fs p).map (·.2)).getD 0

/-- The cooldown test of `_process_changes`: a prior backup exists and
less than `cooldown_minutes` has elapsed since it. -/
def cooldownGate (cfg : MonCfg) (now : Int) (lastBackup : Option Int) : Bool :=
  match lastBackup with
  | some tb => decide (now - tb < (cfg.cooldown_minutes : Int) * 60)
  | none => false

/-- `EnhancedFileChangeHandler._process_changes` at time `now`
(seconds): empty batch returns; then the cooldown gate — a prior
backup less than `cooldown_minutes` ago returns early, leaving the
whole state (pending set included) untouched; otherwise, with an
active prompt, every pending path is associated with it; then
significance is checked (advancing the baselines) and, when any change
is significant, the snapshot trigger fires with that list (returned as
`some`); finally the pending set is cleared. -/
def processChanges (cfg : MonCfg) (fs : FileSys) (now : Int)
    (st : MonState) : MonState × Option (List (String × Nat)) :=
  if st.pending = [] then (st, none)
  else
    if cooldownGate cfg now st.lastBackupTime then (st, none)
    else
      let db' :=
        if st.db.active.isSome then
          st.pending.foldl
            (fun db p => (associate db p (tokensOrZero fs p : Int)).1) st.db
        else st.db
      let res := checkSignificantChanges cfg fs st.pending st.baselines
      let trig := if res.1 = [] then none else some res.1
      ({ st with pending := [], baselines := res.2, db := db' }, trig)

/-! ### Provenance/source inference (`App.refresh_prompt_history`) -/

/-- Whether `pat` is an initial segment of `hay`. -/
def leadsWith : List Char → List Char → Bool
  | [], _ => true
  | _ :: _, [] => false
  | a :: asR, b :: bs => a == b && leadsWith asR bs

/-- Whether `pat` occurs contiguously inside `hay`. -/
def containsSub (hay pat : List Char) : Bool :=
  match hay with
  | [] => pat.isEmpty
  | _ :: t => leadsWith pat hay || containsSub t pat

/-- Python `sub in s` substring test. -/
def strContains (s pat : String) : Bool :=
  containsSub s.toList pat.toList

/-- Python `s.lower()` (ASCII; no claim exercises non-ASCII case). -/
def lowerStr (s : String) : String :=
  String.mk (s.toList.map Char.toLower)

/-- The source-inference conditional chain of
`App.refresh_prompt_history` (lines 2872-2902), exactly as nested in
the code, from `description` and `llm_used`. -/
def inferSource (llm desc : String) : String :=
  if strContains desc "Auto-recorded from Claude Desktop" then "Claude Desktop"
  else if desc ≠ "" && strContains desc "Claude Desktop" then "Claude Desktop"
  else if llm == "Claude" &&
      (strContains desc "via" || strContains (lowerStr desc) "proxy") then
    "Web Browser"
  else if strContains llm "ChatGPT" then "Web Browser"
  else if llm == "Claude" then
    if ["mcp", "auto-recorded", "claude desktop"].any
        (fun ind => strContains (lowerStr desc) ind) then "Claude Desktop"
    else if ["web", "proxy", "browser", "captured", "via", "claude.ai"].any
        (fun ind => strContains (lowerStr desc) ind) then "Web Browser"
    else "Claude Desktop"
  else "Web Browser"

/-- Case-insensitive substring check, as the spec's rule list reads. -/
def ciContains (s pat : String) : Bool :=
  strContains (lowerStr s) (lowerStr pat)

/-- Modelled from the spec: the eight-rule ordered decision list of
§4.3 read literally, "first match wins, case-insensitive substring
checks unless noted" (the spec notes no exception, so every substring
check here is case-insensitive). -/
def specInferSource (llm desc : String) : String :=
  if ciContains desc "Auto-recorded from Claude Desktop" then "Claude Desktop"
  else if ciContains desc "Claude Desktop" then "Claude Desktop"
  else if llm == "Claude" && (ciContains desc "via" || ciContains desc "proxy") then
    "Web Browser"
  else if ciContains llm "ChatGPT" then "Web Browser"
  else if llm == "Claude" && ["mcp", "auto-recorded", "claude desktop"].any
      (fun ind => ciContains desc ind) then "Claude Desktop"
  else if llm == "Claude" &&
      ["web", "proxy", "browser", "captured", "via", "claude.ai"].any
      (fun ind => ciContains desc ind) then "Web Browser"
  else if llm == "Claude" then "Claude Desktop"
  else "Web Browser"

/-- The eight-rule ordered decision list with the case-sensitivity the
code actually applies: rules 1, 2 and 4 and the "via" check of rule 3
are case-sensitive; the "proxy" check of rule 3 and all of rules 5 and
6 lower-case the description first. -/
def specInferSourceAmended (llm desc : String) : String :=
  if strContains desc "Auto-recorded from Claude Desktop" then "Claude Desktop"
  else if strContains desc "Claude Desktop" then "Claude Desktop"
  else if llm == "Claude" &&
      (strContains desc "via" || strContains (lowerStr desc) "proxy") then
    "Web Browser"
  else if strContains llm "ChatGPT" then "Web Browser"
  else if llm == "Claude" && ["mcp", "auto-recorded", "claude desktop"].any
      (fun ind => strContains (lowerStr desc) ind) then "Claude Desktop"
  else if llm == "Claude" &&
      ["web", "proxy", "browser", "captured", "via", "claude.ai"].any
      (fun ind => strContains (lowerStr desc) ind) then "Web Browser"
  else if llm == "Claude" then "Claude Desktop"
  else "Web Browser"

/-! ### The `POST /record_prompt` endpoint (`server/app.py`) -/

/-- Python truthiness of `data.get(key)` for a string field: present
and nonempty. -/
def truthyOpt (o : Option String) : Bool := o.getD "" ≠ ""

/-- The core of the `record_prompt` handler once the request JSON is
decoded: build `llm_used` and `description` from `promptText`,
`llmName`, `modelName` and `pageTitle`, construct a `PromptRecord` and
hand it to `PromptDatabase.add_prompt` (which appends it and makes it
the active prompt).  Returns the new database state and the record. -/
def recordPromptEndpoint (db : PromptDB)
    (promptText llmName modelName pageTitle : Option String)
    (now : DateTime) (fresh : String) : PromptDB × PromptRec :=
  let llm0 := llmName.getD "Unknown LLM"
  let llm_used :=
    if truthyOpt modelName then llm0 ++ " (" ++ modelName.getD "" ++ ")"
    else llm0
  let descr0 := "Prompt from " ++ llm_used
  let descr :=
    if truthyOpt pageTitle then descr0 ++ " - " ++ pageTitle.getD ""
    else descr0
  let r := mkInitRecord now fresh (promptText.getD "") llm_used descr
  (addPrompt db r, r)

/-! ### Snapshot codec (`build_combined_text` / `parse_combined_file`)

Text is modelled as `List Char` so the line-anchored regex split can be
reasoned about structurally; `'\n'` is the line separator exactly as in
the Python source. -/

/-- Python `"\n".join(lines)`. -/
def joinNL : List (List Char) → List Char
  | [] => []
  | [x] => x
  | x :: xs => x ++ '\n' :: joinNL xs

/-- Decompose text into its lines (inverse of `joinNL`); models how the
`re.MULTILINE` anchors see the text.  Always nonempty. -/
def splitNL : List Char → List (List Char)
  | [] => [[]]
  | c :: cs =>
    if c = '\n' then [] :: splitNL cs
    else
      match splitNL cs with
      | [] => [[c]]
      | l :: ls => (c :: l) :: ls

/-- `build_combined_text(selected_files, header, footer)` with each
file's read content given: `[header, ""]` when the header is nonempty,
then `["### " + path, "", content, ""]` per file, then `[footer]` when
nonempty, joined by newlines.  (A read failure substitutes an error
string for `content`; the claims quantify over contents, which covers
that case.) -/
def build_combined_text (files : List (List Char × List Char))
    (header footer : List Char) : List Char :=
  let lines :=
    (if header ≠ [] then [header, []] else []) ++
    (files.flatMap fun pc => (['#', '#', '#', ' '] ++ pc.1) :: [[], pc.2, []]) ++
    (if footer ≠ [] then [footer] else [])
  joinNL lines

/-- A line the pattern `r'^### (.+?)$'` matches in `re.MULTILINE` mode:
it starts with `"### "` and has at least one further character (`.`
does not cross the newline, so the match is the whole line). -/
def isHeaderLine : List Char → Bool
  | '#' :: '#' :: '#' :: ' ' :: _ :: _ => true
  | _ => false

/-- Python `str.strip()` (whitespace trim at both ends). -/
def pyStrip (cs : List Char) : List Char :=
  ((cs.dropWhile Char.isWhitespace).reverse.dropWhile Char.isWhitespace).reverse

/-- Python `str.lstrip('\n')`: drop every leading newline. -/
def lstripNL (cs : List Char) : List Char :=
  cs.dropWhile (· = '\n')

/-- The walk over the lines following one header line with captured
path `path`: `bs` accumulates the block lines seen so far.  At the next
header line (or at the end of input) the entry is emitted — its raw
content is the text between the two matches, i.e. the accumulated lines
re-joined with the newline that followed the header line and, when
another header follows, the newline that precedes it — with every
leading newline stripped (`lstrip('\n')`), and the path stripped. -/
def parseGo (path : List Char) (bs : List (List Char)) :
    List (List Char) → List (List Char × List Char)
  | [] => [(pyStrip path, lstripNL (joinNL ([] :: bs)))]
  | l :: ls =>
    if isHeaderLine l then
      (pyStrip path, lstripNL (joinNL ([] :: bs) ++ ['\n']))
        :: parseGo (l.drop 4) [] ls
    else parseGo path (bs ++ [l]) ls

/-- The block walk over the line list produced by the regex split: text
before the first header line is discarded; each header line yields one
entry via `parseGo`. -/
def parseBlocks : List (List Char) → List (List Char × List Char)
  | [] => []
  | l :: ls => if isHeaderLine l then parseGo (l.drop 4) [] ls else parseBlocks ls

/-- `parse_combined_file` on in-memory text: split at the
`^### (.+?)$` header lines and collect `path → content` entries in
order (the Python dict gives later duplicates overwrite semantics,
captured by `dictGet`). -/
def parse_combined_file (text : List Char) : List (List Char × List Char) :=
  parseBlocks (splitNL text)

/-- The mapping a Python dict built by insertion represents: the value
of the last entry for the key. -/
def dictGet (entries : List (List Char × List Char)) (key : List Char) :
    Option (List Char) :=
  (entries.reverse.find? (fun kv => kv.1 == key)).map (·.2)

/-- Modelled from the spec's round-trip requirement, amended to what the
codec pair actually satisfies: the decode of an encode yields the paths
in order, each mapped to its content plus the separator text the
encoder inserted — `tail` is what follows the LAST file's content
(`"\n"` without a footer, `"\n\n" ++ footer` with one) and every other
file's content gains the two separator newlines. -/
def expectedEntries (files : List (List Char × List Char)) (tail : List Char) :
    List (List Char × List Char) :=
  match files with
  | [] => []
  | (p, c) :: rest =>
    match rest with
    | [] => [(p, c ++ tail)]
    | _ :: _ => (p, c ++ ['\n', '\n']) :: expectedEntries rest tail

/-! ### Concrete fixtures used by counterexamples and witnesses -/

/-- The per-file side conditions of the amended round trip: a nonempty
path without newlines that `strip` leaves unchanged, and nonempty
content that does not start with a newline and contains no line the
header pattern matches. -/
def fileOk (pc : List Char × List Char) : Prop :=
  pc.1 ≠ [] ∧ '\n' ∉ pc.1 ∧ pyStrip pc.1 = pc.1 ∧
  pc.2 ≠ [] ∧ pc.2.headI ≠ '\n' ∧
  ∀ l ∈ splitNL pc.2, isHeaderLine l = false

instance : DecidablePred fileOk := fun pc => by
  unfold fileOk
  infer_instance

/-- A fixed time used by the concrete fixtures. -/
def now0 : DateTime := ⟨2025, 1, 1, 0, 0, 0, 0⟩

/-- A record already associated with `src/main.py` (delta 5). -/
def rec2 : PromptRec :=
  { mkInitRecord now0 "p-1" "make a change" "Claude" "test" with
    associated_files := ["src/main.py"]
    file_changes := [("src/main.py", 5)] }

/-- A database whose active prompt is `rec2`. -/
def db2 : PromptDB := { prompts := [rec2], active := some 0 }

/-- A concrete file system for the cooldown fixtures: every path reads
as hash `"h"` with 7 tokens. -/
def fsFix : FileSys := fun _ => some ("h", 7)

/-- Monitoring state with one pending change, no baselines, and a prior
backup at time 0. -/
def stC4 : MonState :=
  { pending := ["f.py"]
    baselines := []
    lastBackupTime := some 0
    db := { prompts := [], active := none } }

/-- A prompt record with no associations yet. -/
def rec5 : PromptRec := mkInitRecord now0 "p-5" "write code" "Claude" ""

/-- Monitoring state with an active prompt, one pending change and a
prior backup 10 seconds ago. -/
def stC5 : MonState :=
  { pending := ["f.py"]
    baselines := []
    lastBackupTime := some 0
    db := { prompts := [rec5], active := some 0 } }

/-- A concrete wire record produced by the proxy-recorder JSON adapter. -/
def wireRec : JsonDict :=
  addToJsonDb "id-1" "2025-05-09T23:15:44" "hello" "Claude" none [] "Web Browser"

/-- A primary-store record with a fixed id. -/
def dupDict : JsonDict := { id := some "A", prompt_text := some "first" }

/-! ## Shared lemmas -/

theorem lookupA_insertA_self {α : Type} (l : List (String × α)) (k : String)
    (v : α) : lookupA (insertA l k v) k = some v := by
  induction l with
  | nil => simp [insertA, lookupA]
  | cons kv rest ih =>
    by_cases h : kv.1 == k
    · simp [insertA, h, lookupA]
    · simp only [insertA, h, Bool.false_eq_true, if_false]
      simpa [lookupA, h] using ih

theorem lookupA_insertA_ne {α : Type} (l : List (String × α)) (k k' : String)
    (v : α) (h : k' ≠ k) : lookupA (insertA l k v) k' = lookupA l k' := by
  have hbk : (k == k') = false := by
    simpa using fun he => h he.symm
  induction l with
  | nil => simp [insertA, lookupA, hbk]
  | cons kv rest ih =>
    by_cases hk : kv.1 == k
    · have : kv.1 = k := by simpa using hk
      simp [insertA, hk, lookupA, hbk, this]
    · simp only [insertA, hk, Bool.false_eq_true, if_false]
      by_cases hk' : kv.1 == k'
      · simp [lookupA, hk']
      · simpa [lookupA, hk'] using ih

/-! ## Claim C2: `associate_file_with_active_prompt` -/

/-- C2 counterexample: with a prompt active and `src/main.py` already
associated (stored delta 5), a repeat call with delta 10 is a complete
no-op returning the failure indicator — `file_changes` keeps 5.  The
claim's "unconditionally overwrites `file_changes[file_path]` … last
delta observed wins" is false: the guard skips the whole body for an
already-present path. -/
theorem c2_counterexample :
    associate db2 "src/main.py" 10 = (db2, false) ∧
    lookupA rec2.file_changes "src/main.py" = some 5 := by
  decide

/-- C2 (amended): `associate_file_with_active_prompt` returns the
failure indicator and changes nothing when no prompt is active; when a
prompt is active and the path is not yet associated it appends the path,
records the delta, and succeeds; when the path is already associated the
call is a no-op returning the failure indicator, so the FIRST delta
observed wins (a repeat call never overwrites `file_changes`). -/
theorem c2_associate_first_delta_wins :
    ∀ (db : PromptDB) (p : String) (t : Int),
      (db.active = none → associate db p t = (db, false)) ∧
      ∀ i r, db.active = some i → db.prompts[i]? = some r →
        ((p ∈ r.associated_files → associate db p t = (db, false)) ∧
         (p ∉ r.associated_files →
           (associate db p t).2 = true ∧
           ∃ r', (associate db p t).1.prompts[i]? = some r' ∧
             r'.associated_files = r.associated_files ++ [p] ∧
             lookupA r'.file_changes p = some t ∧
             (∀ q, q ≠ p → lookupA r'.file_changes q = lookupA r.file_changes q) ∧
             (associate db p t).1.active = db.active)) := by
  intro db p t
  refine ⟨fun h => by simp [associate, h], ?_⟩
  intro i r hi hr
  constructor
  · intro hmem
    simp [associate, hi, hr, hmem]
  · intro hmem
    have hlt : i < db.prompts.length := (List.getElem?_eq_some.mp hr).1
    let r' : PromptRec :=
      { r with associated_files := r.associated_files ++ [p],
               file_changes := insertA r.file_changes p t }
    have hassoc : associate db p t =
        ({ db with prompts := db.prompts.set i r' }, true) := by
      simp [associate, hi, hr, hmem, r']
    rw [hassoc]
    refine ⟨rfl, r', ?_, rfl, ?_, ?_, rfl⟩
    · simp [List.getElem?_set_self, hlt]
    · exact lookupA_insertA_self _ _ _
    · exact fun q hq => lookupA_insertA_ne _ _ _ _ hq

/-- Witness for C2's amended theorem: associating a fresh path with the
active prompt of `db2` succeeds. -/
theorem c2_associate_first_delta_wins_witness :
    (associate db2 "new.py" 7).2 = true :=
  (((c2_associate_first_delta_wins db2 "new.py" 7).2 0 rec2 rfl rfl).2
    (by decide)).1

/-! ## Claim C10: `add_prompt` / `POST /record_prompt` replace the
active-prompt focus -/

/-- C10: the `record_prompt` endpoint builds a record and hands it to
`PromptDatabase.add_prompt`, which appends it and silently makes it the
active prompt: the active reference becomes the new record (displacing
any previously active index), and a subsequent live file association
lands on the newly recorded prompt while every pre-existing record —
including the previously active one — is left untouched. -/
theorem c10_record_prompt_takes_focus :
    ∀ (db : PromptDB) (ptext lname mname ptitle : Option String)
      (now : DateTime) (fresh : String) (p : String) (t : Int),
      (recordPromptEndpoint db ptext lname mname ptitle now fresh).1.prompts
        = db.prompts ++ [(recordPromptEndpoint db ptext lname mname ptitle now fresh).2] ∧
      (recordPromptEndpoint db ptext lname mname ptitle now fresh).1.active
        = some db.prompts.length ∧
      (∀ j, j < db.prompts.length →
        (recordPromptEndpoint db ptext lname mname ptitle now fresh).1.active ≠ some j) ∧
      ((associate (recordPromptEndpoint db ptext lname mname ptitle now fresh).1 p t).1.prompts.take
          db.prompts.length = db.prompts ∧
       (associate (recordPromptEndpoint db ptext lname mname ptitle now fresh).1 p t).1.prompts[db.prompts.length]?
         = some { (recordPromptEndpoint db ptext lname mname ptitle now fresh).2 with
                  associated_files := [p], file_changes := [(p, t)] }) := by
  intro db ptext lname mname ptitle now fresh p t
  refine ⟨rfl, rfl, ?_, ?_, ?_⟩
  · intro j hj hcontra
    simp only [recordPromptEndpoint, addPrompt, Option.some.injEq] at hcontra
    omega
  · simp [recordPromptEndpoint, addPrompt, associate, List.getElem?_concat_length,
      mkInitRecord, insertA, List.set_append, List.take_left]
  · simp [recordPromptEndpoint, addPrompt, associate, List.getElem?_concat_length,
      mkInitRecord, insertA, List.set_append, List.getElem?_concat_length]

/-- Witness for C10's theorem at a concrete database and request. -/
theorem c10_record_prompt_takes_focus_witness :
    (recordPromptEndpoint db2 (some "hi") (some "Claude") none none now0 "p-2").1.active
      ≠ some 0 :=
  ((c10_record_prompt_takes_focus db2 (some "hi") (some "Claude") none none
    now0 "p-2" "x" 0).2.2.1) 0 (by decide)

/-! ## Claim C3: per-file change significance -/

/-- C3: for every observed file in `_check_for_significant_changes`
(current hash `h`, current tokens `t`): with no baseline the change is
significant unconditionally and the reported delta is the current token
count; with a baseline and an unchanged hash nothing is reported; with
a changed hash the change is reported iff `|t − t₀|` is at least
`min_token_change` (so a delta equal to the threshold is significant
and one less is not); the baseline always advances to `(h, t)`. -/
theorem c3_significance_cases :
    ∀ (cfg : MonCfg) (fs : FileSys) (sig : List (String × Nat))
      (bl : List (String × (String × Nat))) (p : String) (h : String) (t : Nat),
      fs p = some (h, t) →
      (lookupA bl p = none →
        checkStep cfg fs (sig, bl) p = (sig ++ [(p, t)], insertA bl p (h, t))) ∧
      (∀ t₀, lookupA bl p = some (h, t₀) →
        checkStep cfg fs (sig, bl) p = (sig, insertA bl p (h, t))) ∧
      (∀ h₀ t₀, lookupA bl p = some (h₀, t₀) → h₀ ≠ h →
        checkStep cfg fs (sig, bl) p =
          ((if cfg.min_token_change ≤ natDist t t₀ then sig ++ [(p, natDist t t₀)]
            else sig),
           insertA bl p (h, t))) := by
  intro cfg fs sig bl p h t hfs
  refine ⟨?_, ?_, ?_⟩
  · intro hnone
    simp [checkStep, hfs, hnone]
  · intro t₀ hsame
    simp [checkStep, hfs, hsame]
  · intro h₀ t₀ hsome hne
    have hne' : h ≠ h₀ := fun he => hne he.symm
    simp only [checkStep, hfs, hsome, hne', if_true, ge_iff_le]
    by_cases hth : cfg.min_token_change ≤ natDist t t₀ <;> simp [hth, hne']

/-- Witness for C3 at the spec's boundary example: threshold 50,
baseline tokens 100 — a new count of 150 is reported with delta 50,
while 149 is not reported; a file without a baseline is reported with
its full current count; an unchanged hash reports nothing. -/
theorem c3_significance_cases_witness :
    (checkStep ⟨50, 5⟩ (fun _ => some ("h2", 150)) ([], [("a.py", ("h1", 100))]) "a.py"
      = ([("a.py", 50)], [("a.py", ("h2", 150))])) ∧
    (checkStep ⟨50, 5⟩ (fun _ => some ("h2", 149)) ([], [("a.py", ("h1", 100))]) "a.py"
      = ([], [("a.py", ("h2", 149))])) ∧
    (checkStep ⟨50, 5⟩ (fun _ => some ("h2", 3)) ([], []) "a.py"
      = ([("a.py", 3)], [("a.py", ("h2", 3))])) ∧
    (checkStep ⟨50, 5⟩ (fun _ => some ("h1", 100)) ([], [("a.py", ("h1", 100))]) "a.py"
      = ([], [("a.py", ("h1", 100))])) := by
  refine ⟨?_, ?_, ?_, ?_⟩
  · have := ((c3_significance_cases ⟨50, 5⟩ (fun _ => some ("h2", 150)) []
      [("a.py", ("h1", 100))] "a.py" "h2" 150 rfl).2.2) "h1" 100 (by decide) (by decide)
    simpa [natDist] using this
  · have := ((c3_significance_cases ⟨50, 5⟩ (fun _ => some ("h2", 149)) []
      [("a.py", ("h1", 100))] "a.py" "h2" 149 rfl).2.2) "h1" 100 (by decide) (by decide)
    simpa [natDist] using this
  · exact ((c3_significance_cases ⟨50, 5⟩ (fun _ => some ("h2", 3)) []
      [] "a.py" "h2" 3 rfl).1) (by decide)
  · exact ((c3_significance_cases ⟨50, 5⟩ (fun _ => some ("h1", 100)) []
      [("a.py", ("h1", 100))] "a.py" "h1" 100 rfl).2.1) 100 (by decide)

/-! ## Claim C4: the cooldown gate -/

/-- C4 counterexample: 10 seconds after a prior backup with a 5-minute
cooldown, the batch is suppressed — but contrary to the claim, the
pending change is NOT dropped (it stays queued) and the baseline does
NOT advance to the current `(hash, token_count)`: `_process_changes`
returns before `_check_for_significant_changes` runs and before
`pending_changes.clear()`. -/
theorem c4_counterexample :
    (processChanges ⟨50, 5⟩ fsFix 10 stC4 = (stC4, none)) ∧
    fsFix "f.py" = some ("h", 7) ∧
    (processChanges ⟨50, 5⟩ fsFix 10 stC4).1.pending = ["f.py"] ∧
    lookupA (processChanges ⟨50, 5⟩ fsFix 10 stC4).1.baselines "f.py" = none := by
  refine ⟨by decide, rfl, by decide, by decide⟩

/-- C4 (amended): when the cooldown gate suppresses a debounce batch (a
prior backup exists and less than `cooldown_minutes` has elapsed),
`_process_changes` returns early with the entire state unchanged: no
snapshot is triggered for any pending change, no association is made,
the baselines do NOT advance, and the pending changes remain queued for
the next evaluation (so a suppressed change CAN re-trigger later). -/
theorem c4_cooldown_suppression :
    ∀ (cfg : MonCfg) (fs : FileSys) (now : Int) (st : MonState) (tb : Int),
      st.lastBackupTime = some tb →
      now - tb < (cfg.cooldown_minutes : Int) * 60 →
      processChanges cfg fs now st = (st, none) := by
  intro cfg fs now st tb htb hlt
  by_cases hp : st.pending = []
  · simp [processChanges, hp]
  · simp [processChanges, cooldownGate, hp, htb, hlt]

/-- Witness for C4's amended theorem: the 10-seconds-after scenario. -/
theorem c4_cooldown_suppression_witness :
    processChanges ⟨50, 5⟩ fsFix 10 stC4 = (stC4, none) :=
  c4_cooldown_suppression ⟨50, 5⟩ fsFix 10 stC4 0 rfl (by decide)

/-! ## Claim C5: association vs. snapshotting -/

theorem associate_active_mem (db : PromptDB) (p : String) (t : Int)
    (i : Nat) (r : PromptRec) (hi : db.active = some i)
    (hr : db.prompts[i]? = some r) :
    (associate db p t).1.active = some i ∧
    ∃ r', (associate db p t).1.prompts[i]? = some r' ∧
      p ∈ r'.associated_files ∧
      ∀ q ∈ r.associated_files, q ∈ r'.associated_files := by
  by_cases hmem : p ∈ r.associated_files
  · have : associate db p t = (db, false) := by simp [associate, hi, hr, hmem]
    rw [this]
    exact ⟨hi, r, hr, hmem, fun q hq => hq⟩
  · have hlt : i < db.prompts.length := (List.getElem?_eq_some.mp hr).1
    let r' : PromptRec :=
      { r with associated_files := r.associated_files ++ [p],
               file_changes := insertA r.file_changes p t }
    have : associate db p t =
        ({ db with prompts := db.prompts.set i r' }, true) := by
      simp [associate, hi, hr, hmem, r']
    rw [this]
    refine ⟨hi, r', ?_, ?_, ?_⟩
    · simp [List.getElem?_set_self, hlt]
    · simp [r']
    · intro q hq
      simp [r', hq]

theorem assocFold_mem (fs : FileSys) (l : List String) :
    ∀ (db : PromptDB) (i : Nat) (r : PromptRec),
      db.active = some i → db.prompts[i]? = some r →
      (l.foldl (fun d p => (associate d p (tokensOrZero fs p : Int)).1) db).active
        = some i ∧
      ∃ r', (l.foldl (fun d p => (associate d p (tokensOrZero fs p : Int)).1)
          db).prompts[i]? = some r' ∧
        (∀ q ∈ r.associated_files, q ∈ r'.associated_files) ∧
        ∀ p ∈ l, p ∈ r'.associated_files := by
  induction l with
  | nil =>
    intro db i r hi hr
    exact ⟨hi, r, hr, fun q hq => hq, by simp⟩
  | cons p l ih =>
    intro db i r hi hr
    obtain ⟨hact1, r1, hget1, hp1, hsub1⟩ :=
      associate_active_mem db p (tokensOrZero fs p : Int) i r hi hr
    obtain ⟨hact2, r2, hget2, hsub2, hall2⟩ :=
      ih (associate db p (tokensOrZero fs p : Int)).1 i r1 hact1 hget1
    refine ⟨hact2, r2, hget2, fun q hq => hsub2 q (hsub1 q hq), ?_⟩
    intro q hq
    rcases List.mem_cons.mp hq with hq | hq
    · exact hq ▸ hsub2 p hp1
    · exact hall2 q hq

/-- C5 (amended): whenever a prompt is active and the cooldown gate
does NOT suppress the batch, every pending changed path (they all
passed the path-membership test before entering the pending set) is
associated with the active prompt during batch processing, even when
that path is judged non-significant and even when no snapshot fires —
association and snapshotting are decoupled.  Under cooldown
suppression, however, no association happens either (see C4): the
early return precedes the association loop. -/
theorem c5_association_when_gate_open :
    ∀ (cfg : MonCfg) (fs : FileSys) (now : Int) (st : MonState)
      (i : Nat) (r : PromptRec),
      st.db.active = some i → st.db.prompts[i]? = some r →
      (∀ tb, st.lastBackupTime = some tb →
        (cfg.cooldown_minutes : Int) * 60 ≤ now - tb) →
      ∀ p ∈ st.pending, ∃ r',
        (processChanges cfg fs now st).1.db.prompts[i]? = some r' ∧
        p ∈ r'.associated_files := by
  intro cfg fs now st i r hi hr hcool p hp
  have hpending : st.pending ≠ [] := by
    intro h
    rw [h] at hp
    exact absurd hp (List.not_mem_nil p)
  have hgate : cooldownGate cfg now st.lastBackupTime = false := by
    cases hlb : st.lastBackupTime with
    | none => rfl
    | some tb => simpa [cooldownGate] using not_lt.mpr (hcool tb hlb)
  have hred : (processChanges cfg fs now st).1.db
      = st.pending.foldl
          (fun d q => (associate d q (tokensOrZero fs q : Int)).1) st.db := by
    simp [processChanges, hpending, hgate, hi]
  obtain ⟨hact, r', hget, hsub, hall⟩ :=
    assocFold_mem fs st.pending st.db i r hi hr
  exact ⟨r', by rw [hred]; exact hget, hall p hp⟩

/-- C5 counterexample: with a prompt active but the cooldown gate
suppressing the batch (prior backup 10 s ago, 5-minute cooldown), the
pending path is NOT associated with the active prompt — the database
is returned untouched, contradicting the claim's "even when the
cooldown gate suppresses the snapshot". -/
theorem c5_counterexample :
    (processChanges ⟨50, 5⟩ fsFix 10 stC5).1.db = stC5.db ∧
    stC5.db.active = some 0 ∧
    (processChanges ⟨50, 5⟩ fsFix 10 stC5).1.db.prompts
      = [rec5] ∧
    "f.py" ∉ rec5.associated_files ∧ "f.py" ∈ stC5.pending := by
  refine ⟨by decide, rfl, by decide, by decide, by decide⟩

/-- Witness for C5's amended theorem: the same state with the prior
backup 6 minutes in the past gets the association. -/
theorem c5_association_when_gate_open_witness :
    ∃ r', (processChanges ⟨50, 5⟩ fsFix 360 stC5).1.db.prompts[0]? = some r' ∧
      "f.py" ∈ r'.associated_files :=
  c5_association_when_gate_open ⟨50, 5⟩ fsFix 360 stC5 0 rec5 rfl rfl
    (fun tb htb => by
      simp only [stC5, Option.some.injEq] at htb
      subst htb
      decide)
    "f.py" (by decide)

/-! ## Claim C6: provenance inference -/

/-- C6 counterexample: the claim requires the §4.3 rule list with
case-insensitive substring checks ("unless noted", and the spec notes
no exception).  For `llm_used = "Gemini"`,
`description = "CLAUDE DESKTOP"` the case-insensitive rule 2 yields
`Claude Desktop`, but the code's rule 2 is a case-sensitive substring
test, falls through to the final default, and yields `Web Browser`. -/
theorem c6_counterexample :
    inferSource "Gemini" "CLAUDE DESKTOP" = "Web Browser" ∧
    specInferSource "Gemini" "CLAUDE DESKTOP" = "Claude Desktop" ∧
    specInferSource "Gemini" "CLAUDE DESKTOP"
      ≠ inferSource "Gemini" "CLAUDE DESKTOP" := by
  refine ⟨by decide, by decide, by decide⟩

/-- C6 (amended): for every record without a `source` field the label
is computed by the eight-rule ordered decision list, first match wins,
but with the code's actual case sensitivity: rules 1, 2 and 4 and the
"via" check of rule 3 are case-SENSITIVE; only the "proxy" check of
rule 3 and the indicator lists of rules 5 and 6 are case-insensitive.
The claim's named instances hold: `llm_used="Claude"` with
`description="captured via proxy"` → `Web Browser`;
`description="Auto-recorded from Claude Desktop"` → `Claude Desktop`;
an empty description with `llm_used="Claude"` → `Claude Desktop`
(default bias, never a neutral `Unknown`); and an `llm_used` matching
no earlier rule (neither `"Claude"` nor containing `"ChatGPT"`) →
`Web Browser`. -/
theorem c6_source_inference_amended :
    (∀ llm desc, inferSource llm desc = specInferSourceAmended llm desc) ∧
    inferSource "Claude" "captured via proxy" = "Web Browser" ∧
    inferSource "Claude" "Auto-recorded from Claude Desktop" = "Claude Desktop" ∧
    inferSource "Claude" "" = "Claude Desktop" ∧
    inferSource "Gemini" "" = "Web Browser" := by
  refine ⟨?_, by decide, by decide, by decide, by decide⟩
  intro llm desc
  have hb2 : (decide (desc ≠ "") && strContains desc "Claude Desktop")
      = strContains desc "Claude Desktop" := by
    by_cases h : desc = ""
    · subst h; decide
    · simp [h]
  simp only [inferSource, specInferSourceAmended, hb2]
  split_ifs <;> simp_all

/-! ## Claim C8: lenient timestamp parsing -/

/-- C8: timestamp handling in `PromptRecord.from_dict` is total and
lenient: the four observed textual encodings — full ISO with fractional
seconds, ISO with a space separator, ISO without fractional seconds,
ISO with a `T` separator — are accepted and stored as parsed, and every
input (missing key included) either parses or falls back to the current
time; no input propagates a failure. -/
theorem c8_timestamp_lenient :
    (∀ (now : DateTime) (fresh : String) (d : JsonDict),
      parseTimestampOpt (d.timestamp.getD "") = none →
      (fromDict now fresh d).timestamp = now) ∧
    (∀ now fresh d, d.timestamp = some "2025-05-09T23:15:44.850257" →
      (fromDict now fresh d).timestamp = ⟨2025, 5, 9, 23, 15, 44, 850257⟩) ∧
    (∀ now fresh d, d.timestamp = some "2025-05-09 23:15:44" →
      (fromDict now fresh d).timestamp = ⟨2025, 5, 9, 23, 15, 44, 0⟩) ∧
    (∀ now fresh d, d.timestamp = some "2025-05-09T23:15:44" →
      (fromDict now fresh d).timestamp = ⟨2025, 5, 9, 23, 15, 44, 0⟩) ∧
    (∀ now fresh d, d.timestamp = some "2025-05-09 23:15:44.850257" →
      (fromDict now fresh d).timestamp = ⟨2025, 5, 9, 23, 15, 44, 850257⟩) ∧
    (∀ (now : DateTime) (s : String), recordTimestamp now s = now ∨
      ∃ dt, parseTimestampOpt s = some dt ∧ recordTimestamp now s = dt) := by
  refine ⟨?_, ?_, ?_, ?_, ?_, ?_⟩
  · intro now fresh d h
    simp [fromDict, recordTimestamp, h]
  · intro now fresh d h
    have hp : parseTimestampOpt "2025-05-09T23:15:44.850257"
        = some ⟨2025, 5, 9, 23, 15, 44, 850257⟩ := by decide
    simp [fromDict, recordTimestamp, h, hp]
  · intro now fresh d h
    have hp : parseTimestampOpt "2025-05-09 23:15:44"
        = some ⟨2025, 5, 9, 23, 15, 44, 0⟩ := by decide
    simp [fromDict, recordTimestamp, h, hp]
  · intro now fresh d h
    have hp : parseTimestampOpt "2025-05-09T23:15:44"
        = some ⟨2025, 5, 9, 23, 15, 44, 0⟩ := by decide
    simp [fromDict, recordTimestamp, h, hp]
  · intro now fresh d h
    have hp : parseTimestampOpt "2025-05-09 23:15:44.850257"
        = some ⟨2025, 5, 9, 23, 15, 44, 850257⟩ := by decide
    simp [fromDict, recordTimestamp, h, hp]
  · intro now s
    cases hp : parseTimestampOpt s with
    | none => exact Or.inl (by simp [recordTimestamp, hp])
    | some dt => exact Or.inr ⟨dt, rfl, by simp [recordTimestamp, hp]⟩

/-- Witness for C8: a record whose timestamp string is unparsable falls
back to the supplied current time, and the `T`-with-fraction encoding
is stored as parsed. -/
theorem c8_timestamp_lenient_witness :
    (fromDict now0 "u" { timestamp := some "not a timestamp" }).timestamp = now0 ∧
    (fromDict now0 "u" { timestamp := some "2025-05-09T23:15:44.850257" }).timestamp
      = ⟨2025, 5, 9, 23, 15, 44, 850257⟩ :=
  ⟨c8_timestamp_lenient.1 now0 "u" _ (by decide),
   c8_timestamp_lenient.2.1 now0 "u" _ rfl⟩

/-! ## Claim C9: the JSON wire format -/

/-- C9 counterexample: the producer does emit the `source` key, but the
canonical loader `PromptRecord.from_dict` never consumes it — a record
with `source = "Web Browser"` loads identically to one without the key,
and the loaded record's `source` stays the constructor default
`"Unknown"`.  The claim's "consumes every listed key, including the
optional source key" is false. -/
theorem c9_counterexample :
    wireRec.source = some "Web Browser" ∧
    fromDict now0 "u" wireRec = fromDict now0 "u" ({ wireRec with source := none }) ∧
    (fromDict now0 "u" wireRec).source = "Unknown" := by
  refine ⟨rfl, by decide, by decide⟩

/-- C9 (amended): the proxy-recorder JSON adapter writes an object with
exactly the keys `id, timestamp, prompt_text, model, description,
files, source` (the `source` key always included), and the canonical
loader consumes `id, timestamp, prompt_text, model, description` and
`files` — but NOT `source`, which it ignores entirely: the loaded
record's `source` field is always the default `"Unknown"`. -/
theorem c9_wire_format_amended :
    (∀ pid ts pt lname dsc files src,
      jsonKeys (addToJsonDb pid ts pt lname dsc files src)
        = ["id", "timestamp", "prompt_text", "model", "description",
           "files", "source"]) ∧
    (∀ (now : DateTime) (fresh pid ts pt lname : String)
      (dsc : Option String) (files : List String) (src : String),
      (fromDict now fresh (addToJsonDb pid ts pt lname dsc files src)).id
        = some pid ∧
      (fromDict now fresh (addToJsonDb pid ts pt lname dsc files src)).timestamp
        = recordTimestamp now ts ∧
      (fromDict now fresh (addToJsonDb pid ts pt lname dsc files src)).prompt_text
        = pt ∧
      (fromDict now fresh (addToJsonDb pid ts pt lname dsc files src)).llm_used
        = lname ∧
      (fromDict now fresh (addToJsonDb pid ts pt lname dsc files src)).description
        = (if dsc.getD "" ≠ "" then dsc.getD "" else "Prompt from " ++ lname) ∧
      (fromDict now fresh (addToJsonDb pid ts pt lname dsc files src)).associated_files
        = files) ∧
    (∀ (now : DateTime) (fresh : String) (d : JsonDict) (s : Option String),
      fromDict now fresh ({ d with source := s }) = fromDict now fresh d) ∧
    (∀ (now : DateTime) (fresh : String) (d : JsonDict),
      (fromDict now fresh d).source = "Unknown") := by
  refine ⟨?_, ?_, ?_, ?_⟩
  · intro pid ts pt lname dsc files src
    simp [jsonKeys, addToJsonDb]
  · intro now fresh pid ts pt lname dsc files src
    exact ⟨rfl, rfl, rfl, rfl, rfl, rfl⟩
  · intro now fresh d s
    rfl
  · intro now fresh d
    rfl

/-! ## Claim C1: `PromptDatabase.load` reconciliation -/

theorem loadClaudeFold_nil (now : DateTime) (acc : List PromptRec) :
    loadClaudeFold now acc [] = acc := rfl

theorem loadClaudeFold_cons (now : DateTime) (acc : List PromptRec)
    (c : JsonDict) (cs : List JsonDict) :
    loadClaudeFold now acc (c :: cs)
      = loadClaudeFold now
          (if acc.any (fun existing => existing.id == c.id) then acc
           else acc ++ [claudeRecord now c]) cs := rfl

theorem loadClaudeFold_append (now : DateTime) (cs : List JsonDict) :
    ∀ acc, ∃ ex, loadClaudeFold now acc cs = acc ++ ex := by
  induction cs with
  | nil => exact fun acc => ⟨[], by simp [loadClaudeFold_nil]⟩
  | cons c cs ih =>
    intro acc
    rw [loadClaudeFold_cons]
    by_cases h : acc.any (fun existing => existing.id == c.id)
    · simpa [h] using ih acc
    · obtain ⟨ex, hex⟩ := ih (acc ++ [claudeRecord now c])
      exact ⟨claudeRecord now c :: ex, by simp [h, hex]⟩

theorem loadClaudeFold_mem (now : DateTime) (cs : List JsonDict)
    (acc : List PromptRec) (r : PromptRec) (hr : r ∈ acc) :
    r ∈ loadClaudeFold now acc cs := by
  obtain ⟨ex, hex⟩ := loadClaudeFold_append now cs acc
  rw [hex]
  exact List.mem_append_left _ hr

theorem loadClaudeFold_nodup (now : DateTime) (cs : List JsonDict) :
    ∀ acc, ((acc.map (·.id : PromptRec → Option String)).Nodup) →
      ((loadClaudeFold now acc cs).map (·.id : PromptRec → Option String)).Nodup := by
  induction cs with
  | nil => intro acc h; simpa [loadClaudeFold_nil] using h
  | cons c cs ih =>
    intro acc hacc
    rw [loadClaudeFold_cons]
    by_cases h : acc.any (fun existing => existing.id == c.id)
    · simpa [h] using ih acc hacc
    · have hnotin : c.id ∉ acc.map (·.id : PromptRec → Option String) := by
        intro hmem
        obtain ⟨r, hrmem, hrid⟩ := List.mem_map.mp hmem
        exact absurd (List.any_eq_true.mpr ⟨r, hrmem, by simp [hrid]⟩) h
      have hnotin' : ∀ x ∈ acc, ¬ x.id = c.id :=
        fun x hx he => hnotin (List.mem_map.mpr ⟨x, hx, he⟩)
      have : ((acc ++ [claudeRecord now c]).map
          (·.id : PromptRec → Option String)).Nodup := by
        simpa [List.nodup_append, claudeRecord, mkInitRecord] using ⟨hacc, hnotin'⟩
      simpa [h] using ih (acc ++ [claudeRecord now c]) this

theorem loadClaudeFold_covers (now : DateTime) (cs : List JsonDict) :
    ∀ acc, ∀ c ∈ cs, ∃ r ∈ loadClaudeFold now acc cs, r.id = c.id := by
  induction cs with
  | nil => intro acc c hc; exact absurd hc (List.not_mem_nil c)
  | cons c0 cs ih =>
    intro acc c hc
    rw [loadClaudeFold_cons]
    rcases List.mem_cons.mp hc with hc | hc
    · subst hc
      by_cases h : acc.any (fun existing => existing.id == c.id)
      · obtain ⟨r, hrmem, hrid⟩ := List.any_eq_true.mp h
        refine ⟨r, ?_, by simpa using hrid⟩
        simpa [h] using loadClaudeFold_mem now cs acc r hrmem
      · refine ⟨claudeRecord now c, ?_, rfl⟩
        simpa [h] using
          loadClaudeFold_mem now cs (acc ++ [claudeRecord now c])
            (claudeRecord now c) (by simp)
    · by_cases h : acc.any (fun existing => existing.id == c0.id)
      · simpa [h] using ih acc c hc
      · simpa [h] using ih (acc ++ [claudeRecord now c0]) c hc

theorem loadClaudeFold_stable (now : DateTime) (cs : List JsonDict) :
    ∀ acc, (∀ c ∈ cs, ∃ r ∈ acc, r.id = c.id) →
      loadClaudeFold now acc cs = acc := by
  induction cs with
  | nil => intro acc _; exact loadClaudeFold_nil now acc
  | cons c cs ih =>
    intro acc hcov
    obtain ⟨r, hrmem, hrid⟩ := hcov c (List.mem_cons_self c cs)
    have hany : acc.any (fun existing => existing.id == c.id) :=
      List.any_eq_true.mpr ⟨r, hrmem, by simp [hrid]⟩
    rw [loadClaudeFold_cons]
    simp only [hany, if_true]
    exact ih acc (fun c' hc' => hcov c' (List.mem_cons_of_mem c hc'))

/-- C1 counterexample: a primary `prompt_database.json` containing the
same id twice is loaded verbatim — `load` replaces `self.prompts` with
one record per primary entry and deduplicates only the
`claude_prompts.json` pass, so the resulting collection has TWO entries
with id `"A"`, refuting "exactly one entry per unique id" for every
input. -/
theorem c1_counterexample :
    ((dbLoad ⟨[], none⟩ (some [dupDict, dupDict]) (some []) now0
        (fun _ => "u")).1.prompts.map (·.id)) = [some "A", some "A"] ∧
    ¬ (((dbLoad ⟨[], none⟩ (some [dupDict, dupDict]) (some []) now0
        (fun _ => "u")).1.prompts.map (·.id)).Nodup) := by
  refine ⟨by decide, by decide⟩

/-- C1 (amended): provided the records parsed from the primary
`prompt_database.json` carry pairwise-distinct ids (the primary pass
itself performs no deduplication), `load` yields a collection with
exactly one entry per unique id; the primary records are kept first and
verbatim (so a `claude_prompts.json` entry whose id is already present
is skipped and the first-seen record, `prompt_text` included, is
preserved); and re-running the same import — with the primary file
present, or with it missing so that the accumulated collection is kept
— adds no duplicates and leaves the collection unchanged. -/
theorem c1_load_first_seen_wins :
    ∀ (st : PromptDB) (ds cs : List JsonDict) (now : DateTime)
      (fresh : Nat → String),
      ((assignPrimary now fresh ds).map (·.id)).Nodup →
      (((dbLoad st (some ds) (some cs) now fresh).1.prompts.map (·.id)).Nodup ∧
       (dbLoad st (some ds) (some cs) now fresh).1.prompts.take ds.length
         = assignPrimary now fresh ds ∧
       (dbLoad (dbLoad st (some ds) (some cs) now fresh).1 (some ds) (some cs)
           now fresh).1.prompts
         = (dbLoad st (some ds) (some cs) now fresh).1.prompts ∧
       (dbLoad (dbLoad st (some ds) (some cs) now fresh).1 none (some cs)
           now fresh).1.prompts
         = (dbLoad st (some ds) (some cs) now fresh).1.prompts) := by
  intro st ds cs now fresh hnd
  have hres : (dbLoad st (some ds) (some cs) now fresh).1.prompts
      = loadClaudeFold now (assignPrimary now fresh ds) cs := rfl
  have hlen : (assignPrimary now fresh ds).length = ds.length := by
    simp [assignPrimary]
  refine ⟨?_, ?_, rfl, ?_⟩
  · rw [hres]
    exact loadClaudeFold_nodup now cs _ hnd
  · obtain ⟨ex, hex⟩ := loadClaudeFold_append now cs (assignPrimary now fresh ds)
    rw [hres, hex, ← hlen]
    exact List.take_left _ _
  · have hcov : ∀ c ∈ cs,
        ∃ r ∈ loadClaudeFold now (assignPrimary now fresh ds) cs, r.id = c.id :=
      loadClaudeFold_covers now cs _
    have : (dbLoad (dbLoad st (some ds) (some cs) now fresh).1 none (some cs)
        now fresh).1.prompts
        = loadClaudeFold now
            (loadClaudeFold now (assignPrimary now fresh ds) cs) cs := rfl
    rw [this, hres]
    exact loadClaudeFold_stable now cs _ hcov

/-- Witness for C1's amended theorem: a one-record primary store plus a
Claude store repeating the same id with different text yields a
duplicate-free collection. -/
theorem c1_load_first_seen_wins_witness :
    (((dbLoad ⟨[], none⟩ (some [dupDict])
        (some [{ dupDict with prompt_text := some "second" }]) now0
        (fun _ => "u")).1.prompts.map (·.id)).Nodup) :=
  (c1_load_first_seen_wins ⟨[], none⟩ [dupDict]
    [{ dupDict with prompt_text := some "second" }] now0 (fun _ => "u")
    (by decide)).1

/-! ## Claim C7: snapshot codec round trip -/

theorem splitNL_ne_nil : ∀ l : List Char, splitNL l ≠ [] := by
  intro l
  cases l with
  | nil => simp [splitNL]
  | cons c cs =>
    by_cases h : c = '\n'
    · simp [splitNL, h]
    · simp only [splitNL, h, if_false]
      cases hs : splitNL cs <;> simp

theorem splitNL_cons_nl (cs : List Char) : splitNL ('\n' :: cs) = [] :: splitNL cs := by
  simp [splitNL]

theorem splitNL_cons_char (c : Char) (cs : List Char) (h : c ≠ '\n') :
    splitNL (c :: cs)
      = (c :: (splitNL cs).headI) :: (splitNL cs).tail := by
  simp only [splitNL, h, if_false]
  cases hs : splitNL cs with
  | nil => exact absurd hs (splitNL_ne_nil cs)
  | cons l ls => simp

theorem splitNL_no_newline : ∀ l : List Char, '\n' ∉ l → splitNL l = [l] := by
  intro l
  induction l with
  | nil => intro _; rfl
  | cons c cs ih =>
    intro h
    have hc : c ≠ '\n' := fun he => h (he ▸ List.mem_cons_self c cs)
    have hcs : '\n' ∉ cs := fun hm => h (List.mem_cons_of_mem c hm)
    rw [splitNL_cons_char c cs hc, ih hcs]
    simp [List.headI]

theorem splitNL_append_nl : ∀ a b : List Char,
    splitNL (a ++ '\n' :: b) = splitNL a ++ splitNL b := by
  intro a b
  induction a with
  | nil => simp [splitNL_cons_nl, splitNL]
  | cons c cs ih =>
    by_cases h : c = '\n'
    · subst h
      simp [splitNL_cons_nl, ih]
    · rw [List.cons_append, splitNL_cons_char c _ h, splitNL_cons_char c cs h, ih]
      cases hs : splitNL cs with
      | nil => exact absurd hs (splitNL_ne_nil cs)
      | cons l ls => simp

theorem joinNL_cons (x : List Char) (xs : List (List Char)) (h : xs ≠ []) :
    joinNL (x :: xs) = x ++ '\n' :: joinNL xs := by
  cases xs with
  | nil => exact absurd rfl h
  | cons y ys => rfl

theorem joinNL_splitNL : ∀ c : List Char, joinNL (splitNL c) = c := by
  intro c
  induction c with
  | nil => rfl
  | cons ch cs ih =>
    by_cases h : ch = '\n'
    · subst h
      rw [splitNL_cons_nl, joinNL_cons _ _ (splitNL_ne_nil cs), ih]
      rfl
    · rw [splitNL_cons_char ch cs h]
      cases hs : splitNL cs with
      | nil => exact absurd hs (splitNL_ne_nil cs)
      | cons l ls =>
        rw [hs] at ih
        simp only [List.headI, List.tail]
        cases ls with
        | nil =>
          simpa [joinNL] using ih
        | cons l2 ls2 =>
          rw [joinNL_cons _ _ (by simp)]
          rw [joinNL_cons _ _ (by simp)] at ih
          simpa using ih

theorem joinNL_append : ∀ (xs ys : List (List Char)), xs ≠ [] → ys ≠ [] →
    joinNL (xs ++ ys) = joinNL xs ++ '\n' :: joinNL ys := by
  intro xs ys hxs hys
  induction xs with
  | nil => exact absurd rfl hxs
  | cons x xs ih =>
    cases xs with
    | nil =>
      rw [List.cons_append, List.nil_append, joinNL_cons x ys hys]
      rfl
    | cons x2 xs2 =>
      rw [List.cons_append, joinNL_cons x _ (by simp),
        joinNL_cons x (x2 :: xs2) (by simp), ih (by simp)]
      simp

theorem splitNL_joinNL_flat : ∀ els : List (List Char), els ≠ [] →
    splitNL (joinNL els) = els.flatMap splitNL := by
  intro els hels
  induction els with
  | nil => exact absurd rfl hels
  | cons x xs ih =>
    cases xs with
    | nil => simp [joinNL]
    | cons x2 xs2 =>
      rw [joinNL_cons x _ (by simp), splitNL_append_nl, ih (by simp)]
      simp

theorem takeWhile_append_all {α : Type} (p : α → Bool) (xs ys : List α)
    (h : ∀ x ∈ xs, p x = true) :
    (xs ++ ys).takeWhile p = xs ++ ys.takeWhile p := by
  induction xs with
  | nil => simp
  | cons x xs ih =>
    have hx := h x (List.mem_cons_self x xs)
    simp only [List.cons_append, List.takeWhile_cons, hx, if_true]
    rw [ih (fun a ha => h a (List.mem_cons_of_mem x ha))]

theorem dropWhile_append_all {α : Type} (p : α → Bool) (xs ys : List α)
    (h : ∀ x ∈ xs, p x = true) :
    (xs ++ ys).dropWhile p = ys.dropWhile p := by
  induction xs with
  | nil => simp
  | cons x xs ih =>
    have hx := h x (List.mem_cons_self x xs)
    simp only [List.cons_append, List.dropWhile_cons, hx, if_true]
    exact ih (fun a ha => h a (List.mem_cons_of_mem x ha))

theorem parseBlocks_nil : parseBlocks [] = [] := rfl

theorem parseBlocks_cons_skip (l : List Char) (ls : List (List Char))
    (h : isHeaderLine l = false) : parseBlocks (l :: ls) = parseBlocks ls := by
  simp [parseBlocks, h]

theorem parseGo_spec : ∀ (ls : List (List Char)) (path : List Char)
    (bs : List (List Char)),
    parseGo path bs ls
      = (pyStrip path,
         lstripNL (joinNL ([] :: (bs ++ ls.takeWhile (fun x => !isHeaderLine x))) ++
           (if (ls.dropWhile (fun x => !isHeaderLine x)).isEmpty then []
            else ['\n'])))
        :: parseBlocks (ls.dropWhile (fun x => !isHeaderLine x)) := by
  intro ls
  induction ls with
  | nil =>
    intro path bs
    simp [parseGo, parseBlocks]
  | cons l ls ih =>
    intro path bs
    cases hl : isHeaderLine l with
    | true =>
      have hpred : (fun x => !isHeaderLine x) l = false := by simp [hl]
      rw [List.takeWhile_cons, List.dropWhile_cons]
      simp only [hpred, Bool.false_eq_true, if_false, List.append_nil,
        List.isEmpty_cons]
      simp only [parseGo, hl, if_true]
      rw [parseBlocks]
      simp [hl]
    | false =>
      have hpred : (fun x => !isHeaderLine x) l = true := by simp [hl]
      rw [List.takeWhile_cons, List.dropWhile_cons]
      simp only [hpred, if_true]
      simp only [parseGo, hl, Bool.false_eq_true, if_false]
      rw [ih path (bs ++ [l])]
      simp [List.append_assoc]

theorem parseBlocks_cons_header (l : List Char) (ls : List (List Char))
    (h : isHeaderLine l = true) :
    parseBlocks (l :: ls)
      = (pyStrip (l.drop 4),
         lstripNL (joinNL ([] :: ls.takeWhile (fun x => !isHeaderLine x)) ++
           (if (ls.dropWhile (fun x => !isHeaderLine x)).isEmpty then []
            else ['\n'])))
        :: parseBlocks (ls.dropWhile (fun x => !isHeaderLine x)) := by
  have hb : parseBlocks (l :: ls) = parseGo (l.drop 4) [] ls := by
    simp [parseBlocks, h]
  rw [hb, parseGo_spec ls (l.drop 4) []]
  simp

theorem parseBlocks_skip_all (pre ls : List (List Char))
    (h : ∀ l ∈ pre, isHeaderLine l = false) :
    parseBlocks (pre ++ ls) = parseBlocks ls := by
  induction pre with
  | nil => simp
  | cons l pre ih =>
    rw [List.cons_append,
      parseBlocks_cons_skip _ _ (h l (List.mem_cons_self l pre))]
    exact ih (fun a ha => h a (List.mem_cons_of_mem l ha))

theorem lstripNL_cons_nl (cs : List Char) : lstripNL ('\n' :: cs) = lstripNL cs := by
  simp [lstripNL]

theorem lstripNL_no_nl_head (c : Char) (cs : List Char) (h : c ≠ '\n') :
    lstripNL (c :: cs) = c :: cs := by
  simp [lstripNL, List.dropWhile_cons, h]

theorem takeWhile_all {α : Type} (p : α → Bool) (ls : List α)
    (h : ∀ x ∈ ls, p x = true) : ls.takeWhile p = ls := by
  simpa using takeWhile_append_all p ls [] h

theorem dropWhile_all {α : Type} (p : α → Bool) (ls : List α)
    (h : ∀ x ∈ ls, p x = true) : ls.dropWhile p = [] := by
  simpa using dropWhile_append_all p ls [] h

theorem isHeaderLine_hdr (p : List Char) (hp : p ≠ []) :
    isHeaderLine (['#', '#', '#', ' '] ++ p) = true := by
  cases p with
  | nil => exact absurd rfl hp
  | cons a asR => rfl

theorem lstripNL_two_then (c : List Char) (x : List Char) (hne : c ≠ [])
    (hh : c.headI ≠ '\n') :
    lstripNL ('\n' :: '\n' :: (c ++ x)) = c ++ x := by
  cases c with
  | nil => exact absurd rfl hne
  | cons ch cs =>
    rw [lstripNL_cons_nl, lstripNL_cons_nl, List.cons_append,
      lstripNL_no_nl_head ch (cs ++ x) (by simpa [List.headI] using hh)]

theorem parseBlocks_blocks :
    ∀ (files : List (List Char × List Char)) (foot : List (List Char)),
      (∀ pc ∈ files, fileOk pc) →
      (∀ l ∈ foot, isHeaderLine l = false) →
      parseBlocks
        (files.flatMap
          (fun pc => (['#', '#', '#', ' '] ++ pc.1) :: [] :: splitNL pc.2 ++ [[]])
         ++ foot)
        = expectedEntries files
            ('\n' :: (if foot.isEmpty then [] else '\n' :: joinNL foot)) := by
  intro files
  induction files with
  | nil =>
    intro foot _ hfoot
    rw [List.flatMap_nil, List.nil_append, ← List.append_nil foot,
      parseBlocks_skip_all foot [] hfoot, parseBlocks_nil]
    rfl
  | cons pc rest ih =>
    intro foot hfiles hfoot
    obtain ⟨p, c⟩ := pc
    obtain ⟨hp1, hp2, hp3, hc1, hc2, hc3⟩ :=
      hfiles (p, c) (List.mem_cons_self _ _)
    have hrestOk : ∀ x ∈ rest, fileOk x :=
      fun x hx => hfiles x (List.mem_cons_of_mem _ hx)
    have hpreAll : ∀ x ∈ ([] :: (splitNL c ++ [[]]) :
        List (List Char)), (!isHeaderLine x) = true := by
      intro x hx
      rcases List.mem_cons.mp hx with hx | hx
      · subst hx; rfl
      · rcases List.mem_append.mp hx with hx | hx
        · simp [hc3 x hx]
        · rcases List.mem_singleton.mp hx with rfl; rfl
    have hflat : (((p, c) :: rest).flatMap
        (fun pc => (['#', '#', '#', ' '] ++ pc.1) :: [] :: splitNL pc.2 ++ [[]])
        ++ foot)
        = (['#', '#', '#', ' '] ++ p) ::
          (([] :: (splitNL c ++ [[]])) ++
            (rest.flatMap (fun pc =>
              (['#', '#', '#', ' '] ++ pc.1) :: [] :: splitNL pc.2 ++ [[]])
             ++ foot)) := by
      simp [List.flatMap_cons, List.append_assoc]
    rw [hflat, parseBlocks_cons_header _ _ (isHeaderLine_hdr p hp1)]
    have hdrop4 : (['#', '#', '#', ' '] ++ p).drop 4 = p := rfl
    rw [hdrop4, hp3]
    set tailLines := rest.flatMap (fun pc =>
        (['#', '#', '#', ' '] ++ pc.1) :: [] :: splitNL pc.2 ++ [[]]) ++ foot
      with htl
    rw [takeWhile_append_all _ _ _ hpreAll, dropWhile_append_all _ _ _ hpreAll]
    cases rest with
    | nil =>
      have htail : tailLines = foot := by simp [htl]
      rw [htail, takeWhile_all _ foot (fun x hx => by simp [hfoot x hx]),
        dropWhile_all _ foot (fun x hx => by simp [hfoot x hx])]
      have hjoin : joinNL ([] :: (([] :: (splitNL c ++ [[]])) ++ foot))
          = '\n' :: '\n' ::
            (c ++ '\n' :: (if foot.isEmpty then [] else '\n' :: joinNL foot)) := by
        rw [joinNL_cons _ _ (by simp), List.cons_append,
          joinNL_cons _ _ (by simp)]
        cases foot with
        | nil =>
          rw [List.append_nil, joinNL_append (splitNL c) [[]]
            (splitNL_ne_nil c) (by simp), joinNL_splitNL]
          rfl
        | cons f fs =>
          rw [List.append_assoc,
            joinNL_append (splitNL c) ([[]] ++ f :: fs)
              (splitNL_ne_nil c) (by simp), joinNL_splitNL]
          have hinner : joinNL ([[]] ++ f :: fs) = '\n' :: joinNL (f :: fs) :=
            joinNL_cons [] (f :: fs) (by simp)
          rw [hinner]
          rfl
      rw [hjoin]
      simp only [List.isEmpty_nil, if_true, List.append_nil, parseBlocks_nil]
      rw [lstripNL_two_then c _ hc1 hc2]
      rfl
    | cons pc2 rest2 =>
      have hne : tailLines = (['#', '#', '#', ' '] ++ pc2.1) ::
          (([] :: splitNL pc2.2 ++ [[]]) ++
            (rest2.flatMap (fun pc =>
              (['#', '#', '#', ' '] ++ pc.1) :: [] :: splitNL pc.2 ++ [[]])
             ++ foot)) := by
        simp [htl, List.flatMap_cons, List.append_assoc]
      have hhd2 : isHeaderLine (['#', '#', '#', ' '] ++ pc2.1) = true :=
        isHeaderLine_hdr pc2.1 (hrestOk pc2 (List.mem_cons_self _ _)).1
      have hhd2c : isHeaderLine ('#' :: '#' :: '#' :: ' ' :: pc2.1) = true := hhd2
      have htake : tailLines.takeWhile (fun x => !isHeaderLine x) = [] := by
        rw [hne]
        simp [List.takeWhile_cons, hhd2c]
      have hdropw : tailLines.dropWhile (fun x => !isHeaderLine x) = tailLines := by
        conv_lhs => rw [hne]
        rw [List.dropWhile_cons]
        simp only [hhd2, Bool.not_true, Bool.false_eq_true, if_false]
        rw [← hne]
      rw [htake, hdropw]
      have hjoin : joinNL ([] :: (([] :: (splitNL c ++ [[]])) ++ []))
          = '\n' :: '\n' :: (c ++ ['\n']) := by
        rw [List.append_nil, joinNL_cons _ _ (by simp),
          joinNL_cons _ _ (by simp),
          joinNL_append (splitNL c) [[]] (splitNL_ne_nil c) (by simp),
          joinNL_splitNL]
        rfl
      have htlne : tailLines.isEmpty = false := by rw [hne]; rfl
      rw [hjoin, htlne]
      simp only [Bool.false_eq_true, if_false]
      have : ('\n' :: '\n' :: (c ++ ['\n'])) ++ ['\n']
          = '\n' :: '\n' :: (c ++ ['\n', '\n']) := by simp
      rw [this, lstripNL_two_then c _ hc1 hc2]
      rw [ih foot hrestOk hfoot]
      rfl

theorem flat_files_lines : ∀ (files : List (List Char × List Char)),
    (∀ pc ∈ files, '\n' ∉ pc.1) →
    (files.flatMap fun pc =>
        (['#', '#', '#', ' '] ++ pc.1) :: [[], pc.2, []]).flatMap splitNL
      = files.flatMap fun pc =>
          (['#', '#', '#', ' '] ++ pc.1) :: [] :: splitNL pc.2 ++ [[]] := by
  intro files
  induction files with
  | nil => intro _; rfl
  | cons pc rest ih =>
    intro h
    have hhd : '\n' ∉ ['#', '#', '#', ' '] ++ pc.1 := by
      intro hmem
      rcases List.mem_append.mp hmem with hmem | hmem
      · simp at hmem
      · exact h pc (List.mem_cons_self _ _) hmem
    rw [List.flatMap_cons, List.flatMap_cons, List.flatMap_append,
      ih (fun x hx => h x (List.mem_cons_of_mem _ hx))]
    congr 1
    have h0 : splitNL ([] : List Char) = [[]] := rfl
    simp only [List.flatMap_cons, List.flatMap_nil, List.append_nil, h0,
      splitNL_no_newline _ hhd]
    simp

/-- C7 (amended): the exact round trip of the claim fails (see the
counterexample), but the codec pair satisfies this round trip up to the
encoder's separators: provided every path is nonempty, newline-free and
`strip`-invariant, every content is nonempty, does not begin with a
newline and contains no line the `^### (.+?)$` pattern matches, and
neither header nor footer contains such a line, decoding an encode
yields the paths in encoding order (so the induced mapping has the
paths as its keys, empty for zero files, last occurrence winning for a
duplicated path), where each non-final content gains the two separator
newlines and the final content gains one newline — plus, when a footer
is present, a second newline and the footer text itself, which the
decoder cannot tell apart from file content. -/
theorem c7_roundtrip_amended :
    ∀ (files : List (List Char × List Char)) (header footer : List Char),
      (∀ pc ∈ files, fileOk pc) →
      (∀ l ∈ splitNL header, isHeaderLine l = false) →
      (∀ l ∈ splitNL footer, isHeaderLine l = false) →
      parse_combined_file (build_combined_text files header footer)
        = expectedEntries files
            (if footer = [] then ['\n'] else '\n' :: '\n' :: footer) := by
  intro files header footer hfiles hheader hfooter
  by_cases hall : header = [] ∧ files = [] ∧ footer = []
  · obtain ⟨h1, h2, h3⟩ := hall
    subst h1; subst h2; subst h3
    decide
  · set A := (if header ≠ [] then [header, []] else [] : List (List Char))
      with hA
    set B := files.flatMap
        (fun pc => (['#', '#', '#', ' '] ++ pc.1) :: [[], pc.2, []]) with hB
    set C := (if footer ≠ [] then [footer] else [] : List (List Char)) with hC
    have hbuild : build_combined_text files header footer = joinNL (A ++ B ++ C) :=
      rfl
    have hels : A ++ B ++ C ≠ [] := by
      intro hnil
      rcases List.append_eq_nil.mp hnil with ⟨hab, hc⟩
      rcases List.append_eq_nil.mp hab with ⟨ha, hb⟩
      refine hall ⟨?_, ?_, ?_⟩
      · by_cases hh : header = []
        · exact hh
        · rw [hA] at ha; simp [hh] at ha
      · cases files with
        | nil => rfl
        | cons x xs => rw [hB] at hb; simp [List.flatMap_cons] at hb
      · by_cases hf : footer = []
        · exact hf
        · rw [hC] at hc; simp [hf] at hc
    have hsplit : splitNL (build_combined_text files header footer)
        = A.flatMap splitNL ++ (B.flatMap splitNL ++ C.flatMap splitNL) := by
      rw [hbuild, splitNL_joinNL_flat _ hels, List.flatMap_append,
        List.flatMap_append, List.append_assoc]
    have hBlines : B.flatMap splitNL
        = files.flatMap (fun pc =>
            (['#', '#', '#', ' '] ++ pc.1) :: [] :: splitNL pc.2 ++ [[]]) :=
      flat_files_lines files (fun pc hpc => (hfiles pc hpc).2.1)
    have hAok : ∀ l ∈ A.flatMap splitNL, isHeaderLine l = false := by
      intro l hl
      rw [hA] at hl
      by_cases hh : header = []
      · simp [hh] at hl
      · simp only [hh, ne_eq, not_false_iff, if_true, List.flatMap_cons,
          List.flatMap_nil, List.append_nil] at hl
        rcases List.mem_append.mp hl with hl | hl
        · exact hheader l hl
        · have hlnil : l = [] := by simpa [splitNL] using hl
          subst hlnil
          rfl
    have hClines : C.flatMap splitNL
        = (if footer = [] then [] else splitNL footer) := by
      rw [hC]
      by_cases hf : footer = [] <;> simp [hf]
    have hCok : ∀ l ∈ (if footer = [] then [] else splitNL footer),
        isHeaderLine l = false := by
      intro l hl
      by_cases hf : footer = []
      · simp [hf] at hl
      · simp only [hf, if_false] at hl
        exact hfooter l hl
    have hparse : parse_combined_file (build_combined_text files header footer)
        = parseBlocks
            (files.flatMap (fun pc =>
              (['#', '#', '#', ' '] ++ pc.1) :: [] :: splitNL pc.2 ++ [[]])
             ++ (if footer = [] then [] else splitNL footer)) := by
      show parseBlocks (splitNL (build_combined_text files header footer)) = _
      rw [hsplit, parseBlocks_skip_all _ _ hAok, hBlines, hClines]
    rw [hparse, parseBlocks_blocks files _ hfiles hCok]
    by_cases hf : footer = []
    · simp [hf]
    · have hne : (splitNL footer).isEmpty = false := by
        cases hs : splitNL footer with
        | nil => exact absurd hs (splitNL_ne_nil footer)
        | cons l ls => rfl
      simp only [hf, if_false, hne, joinNL_splitNL]
      simp

/-- C7 counterexample: encoding the single file `("p", "x")` with empty
header and footer and decoding does NOT recover the original mapping —
the decoder returns `"x\n"` for `"p"` (the encoder's separator blank
line is folded into the content), so the exact round trip the claim
states is false.  (With a footer the failure is worse: the footer text
is appended to the last file's content.) -/
theorem c7_counterexample :
    parse_combined_file (build_combined_text [(['p'], ['x'])] [] [])
      = [(['p'], ['x', '\n'])] ∧
    dictGet (parse_combined_file (build_combined_text [(['p'], ['x'])] [] []))
        ['p'] = some ['x', '\n'] ∧
    dictGet (parse_combined_file (build_combined_text [(['p'], ['x'])] [] []))
        ['p'] ≠ some ['x'] := by
  refine ⟨by decide, by decide, by decide⟩

/-- Witness for C7's amended theorem at the spec's own example: files
`/a.py ↦ "print(1)\n"`, `/b/c.txt ↦ "hello"`, header `"H"`, footer
`"F"`. -/
theorem c7_roundtrip_amended_witness :
    parse_combined_file (build_combined_text
        [("/a.py".toList, "print(1)\n".toList),
         ("/b/c.txt".toList, "hello".toList)] "H".toList "F".toList)
      = [("/a.py".toList, "print(1)\n\n\n".toList),
         ("/b/c.txt".toList, "hello\n\nF".toList)] := by
  have h := c7_roundtrip_amended
    [("/a.py".toList, "print(1)\n".toList),
     ("/b/c.txt".toList, "hello".toList)] "H".toList "F".toList
    (by decide) (by decide) (by decide)
  rw [h]
  decide

end LLMBuddy
